import Mathlib

/-!
Verification of the rex schema-driven binary record codec.

The development shallow-embeds the Rust sources (`src/primitive.rs`,
`src/encoding.rs`, `src/encoder.rs`, `src/decoder.rs`, `src/iter.rs`) into
Lean: byte streams are `List Nat` (each element one byte), machine integers
are `Nat`/`Int` with explicit `% 2^w` where the Rust code wraps or casts,
and fallible operations return `Except`.  Every definition mirrors the
corresponding Rust item, bugs included; theorems then settle the spec's
claims against these definitions.
-/

set_option maxRecDepth 4000

-- Core does not provide decidable equality on `Except`; the claim
-- theorems compare codec results by `decide`.
deriving instance DecidableEq for Except

namespace Rex

/-! ## Schema model (`src/encoding.rs`) -/

/-- `Type` from `encoding.rs` (renamed `Typ` since `Type` is a Lean keyword).
`Record index` carries an index into `CompleteEncoding.depends`. -/
inductive Typ where
  | Int8 | Int16 | Int32 | Int64
  | UInt8 | UInt16 | UInt32 | UInt64
  | Fixed32 | Fixed64
  | Float32 | Float64
  | Bytes | String
  | Bool
  | Enum
  | Record (index : Nat)
  deriving DecidableEq

/-- `FieldID` is a newtype over `u64`; comparisons are numeric, so it is
embedded as `Nat`. -/
abbrev FieldID := Nat

/-- `Quantifier` from `encoding.rs`. -/
inductive Quantifier where
  | Required | Optional | Repeated
  deriving DecidableEq

/-- `FieldEncoding` from `encoding.rs`. -/
structure FieldEncoding where
  id : FieldID
  name : String
  quant : Quantifier
  typ : Typ
  bounds : Option Nat
  deriving DecidableEq

/-- `RecordEncoding` from `encoding.rs`. -/
structure RecordEncoding where
  name : String
  req_fields : List FieldEncoding
  opt_rep_fields : List FieldEncoding
  deriving DecidableEq

/-- `CompleteEncoding` from `encoding.rs`. -/
structure CompleteEncoding where
  target : RecordEncoding
  depends : List RecordEncoding
  deriving DecidableEq

/-! ## Primitive values (`src/primitive.rs`)

`Float32`/`Float64` carry the IEEE-754 bit pattern: the Rust code only ever
transmutes floats to/from `u32`/`u64`, so at wire level a float is its bit
pattern.  `String` carries the UTF-8 bytes (Rust's `String::as_bytes`). -/

/-- Alias so the `Primitive.Bool` constructor below can state its field
type (the constructor name shadows `Bool` inside its own declaration). -/
abbrev Boolean := Bool

inductive Primitive where
  | UInt8 (x : Nat) | UInt16 (x : Nat) | UInt32 (x : Nat) | UInt64 (x : Nat)
  | Int8 (x : Int) | Int16 (x : Int) | Int32 (x : Int) | Int64 (x : Int)
  | Fixed32 (x : Nat) | Fixed64 (x : Nat)
  | Float32 (bits : Nat) | Float64 (bits : Nat)
  | Bool (b : Boolean)
  | Bytes (bs : List Nat) | String (utf8 : List Nat)
  | Enum (x : Int)
  deriving DecidableEq

/-- `Primitive::has_type` from `primitive.rs`, translated arm by arm.  Note
the source's `(UInt16, UInt8)` and `(Int16, Int8)` arms, and the absence of
`(UInt16, UInt16)` / `(Int16, Int16)` arms. -/
def Primitive.has_type : Primitive → Typ → Boolean
  | .UInt8 _, .UInt8 => true
  | .UInt16 _, .UInt8 => true
  | .UInt32 _, .UInt32 => true
  | .UInt64 _, .UInt64 => true
  | .Int8 _, .Int8 => true
  | .Int16 _, .Int8 => true
  | .Int32 _, .Int32 => true
  | .Int64 _, .Int64 => true
  | .Fixed32 _, .Fixed32 => true
  | .Fixed64 _, .Fixed64 => true
  | .Float32 _, .Float32 => true
  | .Float64 _, .Float64 => true
  | .Bool _, .Bool => true
  | .Bytes _, .Bytes => true
  | .String _, .String => true
  | .Enum _, .Enum => true
  | _, _ => false

/-! ## Two's-complement casts

Helpers for Rust's `as` casts between signed and unsigned machine ints. -/

/-- `x as u64` for `x : i64` (two's complement). -/
def toU64 (x : Int) : Nat := (x % (2 ^ 64 : Int)).toNat

/-- `x as u16` for `x : i16`. -/
def toU16 (x : Int) : Nat := (x % (2 ^ 16 : Int)).toNat

/-- `x as u8` for `x : i8`. -/
def toU8 (x : Int) : Nat := (x % (2 ^ 8 : Int)).toNat

/-- `!u` on `u64`: bitwise complement of a value `< 2^64`. -/
def not64 (u : Nat) : Nat := 2 ^ 64 - 1 - u

/-- `u as i64` for `u : u64`. -/
def toI64 (u : Nat) : Int := if u % 2 ^ 64 < 2 ^ 63 then (u % 2 ^ 64 : Nat) else (u % 2 ^ 64 : Nat) - 2 ^ 64

/-- `x as i32` for `x : i64` (truncate to low 32 bits, reinterpret). -/
def toI32 (x : Int) : Int :=
  let u := (x % (2 ^ 32 : Int)).toNat
  if u < 2 ^ 31 then u else (u : Int) - 2 ^ 32

/-- `u as i16` for `u : u16`. -/
def toI16 (u : Nat) : Int := if u % 2 ^ 16 < 2 ^ 15 then (u % 2 ^ 16 : Nat) else (u % 2 ^ 16 : Nat) - 2 ^ 16

/-- `u as i8` for `u : u8`. -/
def toI8 (u : Nat) : Int := if u % 2 ^ 8 < 2 ^ 7 then (u % 2 ^ 8 : Nat) else (u % 2 ^ 8 : Nat) - 2 ^ 8

/-! ## Write-side byte codec (`src/primitive.rs`, duplicated in `src/encoder.rs`)

Each writer returns the bytes it appends to the sink together with the
`usize` the Rust function returns. -/

/-- The `while x > 0x7F` loop of `write_uvarint`, with an explicit
iteration budget so the recursion is structural: each iteration emits
7 bits of `x` into `buf` at `idx` and shifts.  (The budget is only a
formal device; `write_uvarint_loop` below instantiates it with 10, which
theorem `write_uvarint_loop_eq` proves is never exhausted for a `u64`
argument — a 64-bit value needs at most 9 iterations.) -/
def write_uvarint_loop_f : Nat → Nat → Nat → List Nat → List Nat × Nat
  | 0, x, idx, buf => (buf.set idx x, idx)
  | fuel + 1, x, idx, buf =>
    if 0x7F < x then
      write_uvarint_loop_f fuel (x >>> 7) (idx + 1) (buf.set idx (0x80 ||| (x % 0x80)))
    else
      (buf.set idx x, idx)

/-- The `while x > 0x7F` loop of `write_uvarint`: fills the 10-byte buffer
`buf` starting at `idx`, returning the final buffer and the final `idx`. -/
def write_uvarint_loop (x : Nat) (idx : Nat) (buf : List Nat) : List Nat × Nat :=
  write_uvarint_loop_f 10 x idx buf

/-- `write_uvarint` from `primitive.rs`: after the loop it executes
`w.write_all(&buf[idx..])` — the bytes from the final index to the end of
the 10-byte buffer — and returns `idx + 1`. -/
def write_uvarint (x : Nat) : List Nat × Nat :=
  let r := write_uvarint_loop x 0 (List.replicate 10 0)
  (r.1.drop r.2, r.2 + 1)

/-- `write_varint` from `primitive.rs`: zig-zag map `ux = (x as u64) << 1`,
then `write_uvarint(if x < 0 { !ux } else { ux })`. -/
def write_varint (x : Int) : List Nat × Nat :=
  let ux := toU64 x * 2 % 2 ^ 64
  write_uvarint (if x < 0 then not64 ux else ux)

/-- `write_u8`. -/
def write_u8 (x : Nat) : List Nat × Nat := ([x], 1)

/-- `write_le_u16`: bytes `[(x >> 0) & 0xFF, (x >> 8) & 0xFF]`. -/
def write_le_u16 (x : Nat) : List Nat × Nat :=
  ([x >>> 0 &&& 0xFF, x >>> 8 &&& 0xFF], 2)

/-- `write_le_u32`. -/
def write_le_u32 (x : Nat) : List Nat × Nat :=
  ([x >>> 0 &&& 0xFF, x >>> 8 &&& 0xFF, x >>> 16 &&& 0xFF, x >>> 24 &&& 0xFF], 4)

/-- `write_le_u64`. -/
def write_le_u64 (x : Nat) : List Nat × Nat :=
  ([x >>> 0 &&& 0xFF, x >>> 8 &&& 0xFF, x >>> 16 &&& 0xFF, x >>> 24 &&& 0xFF,
    x >>> 32 &&& 0xFF, x >>> 40 &&& 0xFF, x >>> 48 &&& 0xFF, x >>> 56 &&& 0xFF], 8)

/-- `write_i8` = `write_u8(x as u8)`. -/
def write_i8 (x : Int) : List Nat × Nat := write_u8 (toU8 x)

/-- `write_le_i16` = `write_le_u16(x as u16)`. -/
def write_le_i16 (x : Int) : List Nat × Nat := write_le_u16 (toU16 x)

/-- `uvarint_size` from `primitive.rs`: the if-then-else ladder. -/
def uvarint_size (x : Nat) : Nat :=
  if x < 0x80 then 1
  else if x < 0x80 <<< 7 then 2
  else if x < 0x80 <<< 14 then 3
  else if x < 0x80 <<< 21 then 4
  else if x < 0x80 <<< 28 then 5
  else if x < 0x80 <<< 35 then 6
  else if x < 0x80 <<< 42 then 7
  else if x < 0x80 <<< 49 then 8
  else if x < 0x80 <<< 56 then 9
  else 10

/-! ## Read-side byte codec (`src/decoder.rs`, `src/iter.rs`)

A byte source is a `List Nat`; each reader returns the value read and the
remaining source.  An in-memory source never raises I/O errors, so the only
error the read layer produces is via `take_or_err` (EOF) and the validation
checks (`BadBool`, `Utf8Error`). -/

/-- Decoder `Error` from `decoder.rs` (error payloads dropped: on a pure
in-memory source no `io::Error` can occur, and the `FromUtf8Error` payload
is never inspected). -/
inductive DecodeError where
  | EOF | FieldTypeMismatch | EncodingInvalid | BadBool | Utf8Error | IoError
  deriving DecidableEq

/-- `TakeWhileInclusive` from `iter.rs`, run to completion over a list:
returns the yielded elements (every element while `pred` holds plus the
first one for which it fails) and the rest of the source. -/
def takeWhileIncl (pred : Nat → Bool) : List Nat → List Nat × List Nat
  | [] => ([], [])
  | b :: rest =>
    if pred b then
      let r := takeWhileIncl pred rest
      (b :: r.1, r.2)
    else ([b], rest)

/-- The computation inside `read_uvarint`: take bytes while the high bit is
set (inclusively), then `result::fold` with `(sum << 7) + (x & 0x7F)` on
`u64`. -/
def ruv (src : List Nat) : Nat × List Nat :=
  let r := takeWhileIncl (fun b => 0x80 ≤ b) src
  (r.1.foldl (fun sum x => (sum * 128 + x % 0x80) % 2 ^ 64) 0, r.2)

/-- `read_uvarint` from `decoder.rs`.  On a pure byte-list source the
underlying iterator yields no `Err`s, so the fold always returns `Ok`. -/
def read_uvarint (src : List Nat) : Except DecodeError (Nat × List Nat) :=
  .ok (ruv src)

/-- `read_varint` from `decoder.rs`: note the source computes
`(!ux >> 1) as i64` (complement before the shift) and negates. -/
def read_varint (src : List Nat) : Except DecodeError (Int × List Nat) :=
  let r := ruv src
  let ux := r.1
  if ux % 2 ≠ 0 then
    let x := toI64 (not64 ux >>> 1)
    .ok (-x, r.2)
  else
    .ok (toI64 (ux >>> 1), r.2)

/-- `read_u8`: one byte via `take_or_err(1)`, EOF on an empty source. -/
def read_u8 : List Nat → Except DecodeError (Nat × List Nat)
  | [] => .error .EOF
  | b :: rest => .ok (b, rest)

/-- `read_le_u16` from `decoder.rs`: two bytes via `take_or_err`, folded as
`(so_far << 8) + next` on `u16` (first byte most significant). -/
def read_le_u16 (src : List Nat) : Except DecodeError (Nat × List Nat) :=
  if 2 ≤ src.length then
    .ok ((src.take 2).foldl (fun acc b => (acc * 256 + b) % 2 ^ 16) 0, src.drop 2)
  else .error .EOF

/-- `read_le_u32` from `decoder.rs`: four bytes folded as
`(so_far << 8) + next` on `u32`. -/
def read_le_u32 (src : List Nat) : Except DecodeError (Nat × List Nat) :=
  if 4 ≤ src.length then
    .ok ((src.take 4).foldl (fun acc b => (acc * 256 + b) % 2 ^ 32) 0, src.drop 4)
  else .error .EOF

/-- `read_le_u64` from `decoder.rs`: eight bytes folded as
`(so_far << 8) + next` on `u64`. -/
def read_le_u64 (src : List Nat) : Except DecodeError (Nat × List Nat) :=
  if 8 ≤ src.length then
    .ok ((src.take 8).foldl (fun acc b => (acc * 256 + b) % 2 ^ 64) 0, src.drop 8)
  else .error .EOF

/-! ## Encoder (`src/encoder.rs`)

The Rust `Encoder` borrows a shared staging buffer `data`; the embedding
threads that buffer explicitly.  Each encoding function takes the current
buffer and returns the extended buffer together with the `usize` byte count
the Rust function returns.  The `chunks` list of pending size-prefix patch
records is declared in the source but never pushed to or read, so it is
omitted (it has no effect on `data` or on any return value). -/

/-- Encoder `Error` from `encoder.rs` (an in-memory `Vec<u8>` sink never
raises `IoError`). -/
inductive EncodeError where
  | EncodingInvalid | FieldTypeMismatch | IoError
  deriving DecidableEq

/-- The `Encodable` trait from `encoder.rs`.  `encode_record` receives the
child frame's `RecordEncoding` and the shared buffer and returns the
extended buffer plus the child's byte count (the Rust version receives a
child `Encoder` borrowing the same buffer). -/
structure Encodable where
  get_primitive : FieldID → Nat → Except EncodeError Primitive
  encode_record : RecordEncoding → FieldID → Nat → List Nat → Except EncodeError (List Nat × Nat)
  count_field : FieldID → Except EncodeError Nat

/-- `Encoder::encode_primitive`: dispatch on the `Primitive` variant,
appending the writer's bytes to `data` and returning the match arm's value.
Note the `Bytes`/`String` arms return only the payload length (`x.len()`),
discarding the length-prefix writer's count. -/
def encode_primitive (data : List Nat) : Primitive → List Nat × Nat
  | .UInt8 x => let r := write_u8 x; (data ++ r.1, r.2)
  | .UInt16 x => let r := write_le_u16 x; (data ++ r.1, r.2)
  | .UInt32 x => let r := write_uvarint x; (data ++ r.1, r.2)
  | .UInt64 x => let r := write_uvarint x; (data ++ r.1, r.2)
  | .Int8 x => let r := write_i8 x; (data ++ r.1, r.2)
  | .Int16 x => let r := write_le_i16 x; (data ++ r.1, r.2)
  | .Int32 x => let r := write_varint x; (data ++ r.1, r.2)
  | .Int64 x => let r := write_varint x; (data ++ r.1, r.2)
  | .Fixed32 x => let r := write_le_u32 x; (data ++ r.1, r.2)
  | .Fixed64 x => let r := write_le_u64 x; (data ++ r.1, r.2)
  | .Float32 bits => let r := write_le_u32 bits; (data ++ r.1, r.2)
  | .Float64 bits => let r := write_le_u64 bits; (data ++ r.1, r.2)
  | .Bool b => let r := write_u8 (if b then 0xFF else 0x00); (data ++ r.1, r.2)
  | .Bytes x =>
    let r := write_uvarint x.length
    (data ++ r.1 ++ x, x.length)
  | .String utf8 =>
    let r := write_uvarint utf8.length
    (data ++ r.1 ++ utf8, utf8.length)
  | .Enum x => let r := write_varint x; (data ++ r.1, r.2)

/-- `Encoder::encode_field`: `Record` fields go to the `Encodable`'s
`encode_record` with a child frame (`EncodingInvalid` if the dep index is
out of range); otherwise fetch the primitive, check `has_type`, write it. -/
def encode_field (e : Encodable) (deps : List RecordEncoding) (f : FieldEncoding)
    (index : Nat) (data : List Nat) : Except EncodeError (List Nat × Nat) :=
  match f.typ with
  | .Record childIndex =>
    if h : childIndex < deps.length then
      e.encode_record (deps.get ⟨childIndex, h⟩) f.id index data
    else .error .EncodingInvalid
  | _ => do
    let prim ← e.get_primitive f.id index
    if prim.has_type f.typ then .ok (encode_primitive data prim)
    else .error .FieldTypeMismatch

/-- The `for arr_index in 0..max` loop of `encode_array`: `n` iterations
remain, the next call uses absolute element index `start`; `total`
accumulates the byte counts. -/
def encode_field_range (e : Encodable) (deps : List RecordEncoding) (f : FieldEncoding)
    (start : Nat) : Nat → List Nat → Nat → Except EncodeError (List Nat × Nat)
  | 0, data, total => .ok (data, total)
  | n + 1, data, total =>
    match encode_field e deps f start data with
    | .ok (d1, c) => encode_field_range e deps f (start + 1) n d1 (total + c)
    | .error err => .error err

/-- `Encoder::encode_array`: with `bounds = Some(max)` encode elements
`index*max .. index*max + max - 1`, otherwise a single element at `index`. -/
def encode_array (e : Encodable) (deps : List RecordEncoding) (f : FieldEncoding)
    (index : Nat) (data : List Nat) : Except EncodeError (List Nat × Nat) :=
  match f.bounds with
  | some max => encode_field_range e deps f (index * max) max data 0
  | none => encode_field e deps f index data

/-- `Encoder::encode_optional`: if `count_field` is 0, emit nothing;
otherwise encode the payload and return
`len_id_prefix + len_size_prefix + len_data` — note that only the payload
is appended to `data`; the id and size prefix are merely counted. -/
def encode_optional (e : Encodable) (deps : List RecordEncoding) (f : FieldEncoding)
    (data : List Nat) : Except EncodeError (List Nat × Nat) := do
  let max ← e.count_field f.id
  if max = 0 then .ok (data, 0)
  else
    match encode_array e deps f 0 data with
    | .error err => .error err
    | .ok (d1, lenData) =>
      let lenIdPre := uvarint_size f.id
      let lenSizePre := uvarint_size lenData
      .ok (d1, lenIdPre + lenSizePre + lenData)

/-- The `for index in 0..max` loop of `encode_repeated`, accumulating
`len_data`. -/
def encode_rep_range (e : Encodable) (deps : List RecordEncoding) (f : FieldEncoding) :
    Nat → Nat → List Nat → Nat → Except EncodeError (List Nat × Nat)
  | _, 0, data, total => .ok (data, total)
  | index, n + 1, data, total =>
    match encode_array e deps f index data with
    | .ok (d1, c) => encode_rep_range e deps f (index + 1) n d1 (total + c)
    | .error err => .error err

/-- `Encoder::encode_repeated`: as with optionals, only the element
payloads reach `data`; the id, size and count prefixes are counted but
never written. -/
def encode_repeated (e : Encodable) (deps : List RecordEncoding) (f : FieldEncoding)
    (data : List Nat) : Except EncodeError (List Nat × Nat) := do
  let max ← e.count_field f.id
  if max = 0 then .ok (data, 0)
  else
    match encode_rep_range e deps f 0 max data 0 with
    | .error err => .error err
    | .ok (d1, lenData) =>
      let lenIdPre := uvarint_size f.id
      let lenLengthPre := uvarint_size max
      let lenSizePre := uvarint_size (lenLengthPre + lenData)
      .ok (d1, lenIdPre + lenSizePre + lenLengthPre + lenData)

/-- The required-fields loop of `Encoder::encode`: a non-`Required`
quantifier in `req_fields` is `EncodingInvalid`. -/
def encode_req_fields (e : Encodable) (deps : List RecordEncoding) :
    List FieldEncoding → List Nat → Nat → Except EncodeError (List Nat × Nat)
  | [], data, total => .ok (data, total)
  | f :: rest, data, total =>
    match f.quant with
    | .Required =>
      match encode_array e deps f 0 data with
      | .ok (d1, c) => encode_req_fields e deps rest d1 (total + c)
      | .error err => .error err
    | _ => .error .EncodingInvalid

/-- The optional/repeated-fields loop of `Encoder::encode`. -/
def encode_opt_rep_fields (e : Encodable) (deps : List RecordEncoding) :
    List FieldEncoding → List Nat → Nat → Except EncodeError (List Nat × Nat)
  | [], data, total => .ok (data, total)
  | f :: rest, data, total =>
    match f.quant with
    | .Optional =>
      match encode_optional e deps f data with
      | .ok (d1, c) => encode_opt_rep_fields e deps rest d1 (total + c)
      | .error err => .error err
    | .Repeated =>
      match encode_repeated e deps f data with
      | .ok (d1, c) => encode_opt_rep_fields e deps rest d1 (total + c)
      | .error err => .error err
    | .Required => .error .EncodingInvalid

/-- `Encoder::encode`: required fields, then optional/repeated fields, then
the terminating `write_uvarint(self.data, 0)`. -/
def Encoder.encode (e : Encodable) (rec : RecordEncoding) (deps : List RecordEncoding)
    (data : List Nat) : Except EncodeError (List Nat × Nat) :=
  match encode_req_fields e deps rec.req_fields data 0 with
  | .error err => .error err
  | .ok (d1, t1) =>
    match encode_opt_rep_fields e deps rec.opt_rep_fields d1 t1 with
    | .error err => .error err
    | .ok (d2, t2) =>
      let r := write_uvarint 0
      .ok (d2 ++ r.1, t2 + r.2)

/-! ## Decoder (`src/decoder.rs`)

The `Decodable` trait is modelled as a record of state-transforming
callbacks over an abstract state `σ` (the Rust trait mutates `&mut self`).
`decode_record` receives the child frame's `RecordEncoding` and the current
source and reports how many bytes the nested decode consumed (the Rust
version hands over a child `Decoder` borrowing the same reader, which only
ever moves the reader forward). -/

/-- UTF-8 validity of a byte sequence, as checked by Rust's
`String::from_utf8` (well-formed UTF-8: no overlong forms, no surrogates,
max U+10FFFF). -/
def utf8ContB (b : Nat) : Bool := 0x80 ≤ b && b ≤ 0xBF

def utf8Valid : List Nat → Bool
  | [] => true
  | b :: rest =>
    if b ≤ 0x7F then utf8Valid rest
    else if 0xC2 ≤ b && b ≤ 0xDF then
      match rest with
      | b1 :: r => utf8ContB b1 && utf8Valid r
      | [] => false
    else if b = 0xE0 then
      match rest with
      | b1 :: b2 :: r => (0xA0 ≤ b1 && b1 ≤ 0xBF) && utf8ContB b2 && utf8Valid r
      | _ => false
    else if (0xE1 ≤ b && b ≤ 0xEC) || b = 0xEE || b = 0xEF then
      match rest with
      | b1 :: b2 :: r => utf8ContB b1 && utf8ContB b2 && utf8Valid r
      | _ => false
    else if b = 0xED then
      match rest with
      | b1 :: b2 :: r => (0x80 ≤ b1 && b1 ≤ 0x9F) && utf8ContB b2 && utf8Valid r
      | _ => false
    else if b = 0xF0 then
      match rest with
      | b1 :: b2 :: b3 :: r => (0x90 ≤ b1 && b1 ≤ 0xBF) && utf8ContB b2 && utf8ContB b3 && utf8Valid r
      | _ => false
    else if 0xF1 ≤ b && b ≤ 0xF3 then
      match rest with
      | b1 :: b2 :: b3 :: r => utf8ContB b1 && utf8ContB b2 && utf8ContB b3 && utf8Valid r
      | _ => false
    else if b = 0xF4 then
      match rest with
      | b1 :: b2 :: b3 :: r => (0x80 ≤ b1 && b1 ≤ 0x8F) && utf8ContB b2 && utf8ContB b3 && utf8Valid r
      | _ => false
    else false

/-- The `Decodable` trait from `decoder.rs`. -/
structure Decodable (σ : Type) where
  set_primitive : σ → FieldID → Nat → Primitive → Except DecodeError σ
  decode_record : σ → RecordEncoding → FieldID → Nat → List Nat → Except DecodeError (σ × Nat)
  alloc_field : σ → FieldID → Nat → Except DecodeError (Bool × σ)

/-- The per-`Type` read dispatch inside `Decoder::decode_field` (all
non-`Record` arms): read one element and build the `Primitive`.  Casts
mirror the source (`read_uvarint(..) as u32`, `read_varint(..) as i32`,
etc.). -/
def readPrim : Typ → List Nat → Except DecodeError (Primitive × List Nat)
  | .UInt8, src => do
    let r ← read_u8 src
    .ok (.UInt8 r.1, r.2)
  | .UInt16, src => do
    let r ← read_le_u16 src
    .ok (.UInt16 r.1, r.2)
  | .UInt32, src => do
    let r ← read_uvarint src
    .ok (.UInt32 (r.1 % 2 ^ 32), r.2)
  | .UInt64, src => do
    let r ← read_uvarint src
    .ok (.UInt64 r.1, r.2)
  | .Int8, src => do
    let r ← read_u8 src
    .ok (.Int8 (toI8 r.1), r.2)
  | .Int16, src => do
    let r ← read_le_u16 src
    .ok (.Int16 (toI16 r.1), r.2)
  | .Int32, src => do
    let r ← read_varint src
    .ok (.Int32 (toI32 r.1), r.2)
  | .Int64, src => do
    let r ← read_varint src
    .ok (.Int64 r.1, r.2)
  | .Fixed32, src => do
    let r ← read_le_u32 src
    .ok (.Fixed32 r.1, r.2)
  | .Fixed64, src => do
    let r ← read_le_u64 src
    .ok (.Fixed64 r.1, r.2)
  | .Float32, src => do
    let r ← read_le_u32 src
    .ok (.Float32 r.1, r.2)
  | .Float64, src => do
    let r ← read_le_u64 src
    .ok (.Float64 r.1, r.2)
  | .Bool, src => do
    let r ← read_u8 src
    if r.1 = 0xFF then .ok (.Bool true, r.2)
    else if r.1 = 0x00 then .ok (.Bool false, r.2)
    else .error .BadBool
  | .Bytes, src => do
    let r ← read_uvarint src
    if r.1 ≤ r.2.length then .ok (.Bytes (r.2.take r.1), r.2.drop r.1)
    else .error .EOF
  | .String, src => do
    let r ← read_uvarint src
    if r.1 ≤ r.2.length then
      if utf8Valid (r.2.take r.1) then .ok (.String (r.2.take r.1), r.2.drop r.1)
      else .error .Utf8Error
    else .error .EOF
  | .Enum, src => do
    let r ← read_varint src
    .ok (.Enum r.1, r.2)
  | .Record _, _ => .error .EncodingInvalid

/-- `Decoder::decode_field`: `Record` fields build a child frame from
`deps` (`EncodingInvalid` when the dep index is out of range) and hand it
to the `Decodable`; all other types read a primitive and deliver it via
`set_primitive`. -/
def decode_field (d : Decodable σ) (deps : List RecordEncoding) (f : FieldEncoding)
    (idx : Nat) (s : σ) (src : List Nat) : Except DecodeError (σ × List Nat) :=
  match f.typ with
  | .Record depIndex =>
    if h : depIndex < deps.length then
      match d.decode_record s (deps.get ⟨depIndex, h⟩) f.id idx src with
      | .ok (s1, consumed) => .ok (s1, src.drop consumed)
      | .error e => .error e
    else .error .EncodingInvalid
  | t => do
    let r ← readPrim t src
    let s1 ← d.set_primitive s f.id idx r.1
    .ok (s1, r.2)

/-- The `for arr_index in 0..max` loop of `decode_array`. -/
def decode_field_range (d : Decodable σ) (deps : List RecordEncoding) (f : FieldEncoding)
    (start : Nat) : Nat → σ → List Nat → Except DecodeError (σ × List Nat)
  | 0, s, src => .ok (s, src)
  | n + 1, s, src =>
    match decode_field d deps f start s src with
    | .ok (s1, src1) => decode_field_range d deps f (start + 1) n s1 src1
    | .error e => .error e

/-- `Decoder::decode_array`: with `bounds = Some(max)` decode elements
`idx*max .. idx*max + max - 1`, otherwise a single element at `idx`. -/
def decode_array (d : Decodable σ) (deps : List RecordEncoding) (f : FieldEncoding)
    (idx : Nat) (s : σ) (src : List Nat) : Except DecodeError (σ × List Nat) :=
  match f.bounds with
  | some max => decode_field_range d deps f (idx * max) max s src
  | none => decode_field d deps f idx s src

/-- `Decoder::decode_optional`: discard the byte-size prefix, then
`decode_array` once at outer index 0. -/
def decode_optional (d : Decodable σ) (deps : List RecordEncoding) (f : FieldEncoding)
    (s : σ) (src : List Nat) : Except DecodeError (σ × List Nat) :=
  let r := ruv src
  decode_array d deps f 0 s r.2

/-- The `for idx in 0..len` loop of `decode_repeated`. -/
def decode_rep_range (d : Decodable σ) (deps : List RecordEncoding) (f : FieldEncoding) :
    Nat → Nat → σ → List Nat → Except DecodeError (σ × List Nat)
  | _, 0, s, src => .ok (s, src)
  | idx, n + 1, s, src =>
    match decode_array d deps f idx s src with
    | .ok (s1, src1) => decode_rep_range d deps f (idx + 1) n s1 src1
    | .error e => .error e

/-- `Decoder::decode_repeated`: discard the byte-size prefix, read the
element count, then `decode_array` for indices `0..len`.  (No call to
`alloc_field` occurs anywhere in the source's decode path.) -/
def decode_repeated (d : Decodable σ) (deps : List RecordEncoding) (f : FieldEncoding)
    (s : σ) (src : List Nat) : Except DecodeError (σ × List Nat) :=
  let r := ruv src
  let r2 := ruv r.2
  decode_rep_range d deps f 0 r2.1 s r2.2

/-- `Decoder::skip_field`: read a uvarint length and discard exactly that
many bytes; EOF when the source holds fewer. -/
def skip_field (src : List Nat) : Except DecodeError (List Nat) :=
  let r := ruv src
  if r.1 ≤ r.2.length then .ok (r.2.drop r.1) else .error .EOF

/-! ### The optional/repeated merge loop and `decode` -/

/-- The `while next_id != FieldID(0)` merge loop of `Decoder::decode`,
with an explicit iteration budget so the recursion is structural.  `fields`
is the rest of the `opt_rep_fields` iterator, `nextId` the most recently
read field id.  The source's `next_id = read_uvarint(..)` updates followed
by the loop-condition test appear here as a read followed immediately by
the zero test (the same order the Rust loop evaluates them).

The budget is only a formal device: every iteration either consumes at
least one source byte (a nonzero field id occupies a byte) or discards one
schema entry, so `src.length + fields.length` iterations always suffice;
`decodeLoop` below instantiates the budget accordingly, and theorem
`decodeLoop_eq` proves the budget-free recurrence holds of it. -/
def decodeLoopF (d : Decodable σ) (deps : List RecordEncoding) :
    Nat → List FieldEncoding → Nat → σ → List Nat → Except DecodeError (σ × List Nat)
  | 0, _, _, s, src => .ok (s, src)
  | fuel + 1, fields, nextId, s, src =>
    if nextId = 0 then .ok (s, src)
    else
      match fields with
      | f :: rest =>
        if f.id < nextId then
          decodeLoopF d deps fuel rest nextId s src
        else if nextId < f.id then
          match skip_field src with
          | .error e => .error e
          | .ok src1 =>
            let p := ruv src1
            if p.1 = 0 then .ok (s, p.2)
            else decodeLoopF d deps fuel (f :: rest) p.1 s p.2
        else
          match f.quant with
          | .Required => .error .EncodingInvalid
          | .Optional =>
            match decode_optional d deps f s src with
            | .error e => .error e
            | .ok (s1, src1) =>
              let p := ruv src1
              if p.1 = 0 then .ok (s1, p.2)
              else decodeLoopF d deps fuel rest p.1 s1 p.2
          | .Repeated =>
            match decode_repeated d deps f s src with
            | .error e => .error e
            | .ok (s1, src1) =>
              let p := ruv src1
              if p.1 = 0 then .ok (s1, p.2)
              else decodeLoopF d deps fuel rest p.1 s1 p.2
      | [] =>
        let p := ruv src
        if p.1 = 0 then .ok (s, p.2)
        else decodeLoopF d deps fuel [] p.1 s p.2

/-- The optional/repeated merge loop of `Decoder::decode` (see
`decodeLoopF` for the loop body and `decodeLoop_eq` for the recurrence it
satisfies). -/
def decodeLoop (d : Decodable σ) (deps : List RecordEncoding)
    (fields : List FieldEncoding) (nextId : Nat) (s : σ) (src : List Nat) :
    Except DecodeError (σ × List Nat) :=
  decodeLoopF d deps (src.length + fields.length + 1) fields nextId s src

/-- The required-fields loop at the top of `Decoder::decode`. -/
def decode_req_phase (d : Decodable σ) (deps : List RecordEncoding) :
    List FieldEncoding → σ → List Nat → Except DecodeError (σ × List Nat)
  | [], s, src => .ok (s, src)
  | f :: rest, s, src =>
    match decode_array d deps f 0 s src with
    | .ok (s1, src1) => decode_req_phase d deps rest s1 src1
    | .error e => .error e

/-- `Decoder::decode`: required phase, then read the first field id and run
the optional/repeated merge loop. -/
def Decoder.decode (d : Decodable σ) (rec : RecordEncoding) (deps : List RecordEncoding)
    (s : σ) (src : List Nat) : Except DecodeError (σ × List Nat) :=
  match decode_req_phase d deps rec.req_fields s src with
  | .error e => .error e
  | .ok (s1, src1) =>
    let p := ruv src1
    decodeLoop d deps rec.opt_rep_fields p.1 s1 p.2

/-- `decode_from`: build the top-level frame from a `CompleteEncoding` and
decode. -/
def decode_from (enc : CompleteEncoding) (d : Decodable σ) (s : σ) (src : List Nat) :
    Except DecodeError (σ × List Nat) :=
  Decoder.decode d enc.target enc.depends s src

/-! ## Bootstrap constant (`src/encoding.rs`) -/

/-- `FIELD_ENCODING_TYP` from `encoding.rs`. -/
def FIELD_ENCODING_TYP : Typ := .Record 0

/-- `RECORD_ENCODING_TYP` from `encoding.rs`. -/
def RECORD_ENCODING_TYP : Typ := .Record 1

/-- The hardcoded bootstrap `COMPLETE_ENC` from `encoding.rs`, field for
field. -/
def COMPLETE_ENC : CompleteEncoding :=
  { target :=
      { name := "CompleteEncoding"
        req_fields :=
          [ { id := 1, name := "target", quant := .Required,
              typ := RECORD_ENCODING_TYP, bounds := none } ]
        opt_rep_fields :=
          [ { id := 2, quant := .Repeated, name := "depends",
              typ := RECORD_ENCODING_TYP, bounds := none } ] }
    depends :=
      [ { name := "FieldEncoding"
          req_fields :=
            [ { id := 1, name := "id", quant := .Required,
                typ := .UInt64, bounds := none },
              { id := 2, name := "name", quant := .Required,
                typ := .String, bounds := none },
              { id := 3, name := "quant", quant := .Required,
                typ := .Enum, bounds := none },
              { id := 4, name := "typ", quant := .Required,
                typ := .Enum, bounds := none },
              { id := 5, name := "bounds", quant := .Required,
                typ := .UInt64, bounds := none } ]
          opt_rep_fields := [] },
        { name := "RecordEncoding"
          req_fields :=
            [ { id := 1, name := "name", quant := .Required,
                typ := .String, bounds := none } ]
          opt_rep_fields :=
            [ { id := 2, name := "req_fields", quant := .Repeated,
                typ := FIELD_ENCODING_TYP, bounds := none },
              { id := 3, name := "opt_rep_fields", quant := .Repeated,
                typ := FIELD_ENCODING_TYP, bounds := none } ] } ] }

/-! ## RecordEncoding invariants (spec §3)

Decidable checks for the invariants the spec states on `RecordEncoding`:
quantifier discipline per list, strictly ascending FieldIDs in both lists,
no zero FieldID, and uniqueness of FieldIDs within the record. -/

/-- Strictly ascending comparison of adjacent FieldIDs. -/
def strictlyAscending : List FieldID → Bool
  | [] => true
  | [_] => true
  | a :: b :: rest => decide (a < b) && strictlyAscending (b :: rest)

/-- All FieldIDs of the record (required list then optional/repeated
list). -/
def recordIds (r : RecordEncoding) : List FieldID :=
  (r.req_fields ++ r.opt_rep_fields).map (fun f => f.id)

/-- The `RecordEncoding` invariants of spec §3 as one decidable check. -/
def recordInvariants (r : RecordEncoding) : Bool :=
  r.req_fields.all (fun f => f.quant = Quantifier.Required)
  && r.opt_rep_fields.all
      (fun f => f.quant = Quantifier.Optional || f.quant = Quantifier.Repeated)
  && strictlyAscending (r.req_fields.map (fun f => f.id))
  && strictlyAscending (r.opt_rep_fields.map (fun f => f.id))
  && (recordIds r).all (fun i => decide (i ≠ 0))
  && decide ((recordIds r).Nodup)

/-! ## Concrete fixtures used by the claim theorems -/

/-- Events recorded by the logging `Decodable` below: one entry per
callback invocation. -/
inductive DEvent where
  | setP (id : FieldID) (idx : Nat) (p : Primitive)
  | decR (id : FieldID) (idx : Nat)
  | allocF (id : FieldID) (count : Nat)
  deriving DecidableEq

/-- A `Decodable` whose state is the list of callback invocations, in
order.  Every callback accepts (`alloc_field` answers `true`) and logs
itself, so the log is a faithful trace of what the decoder invoked. -/
def logDecodable : Decodable (List DEvent) :=
  { set_primitive := fun s id idx p => .ok (s ++ [.setP id idx p])
    decode_record := fun s _ id idx _ => .ok (s ++ [.decR id idx], 0)
    alloc_field := fun s id count => .ok (true, s ++ [.allocF id count]) }

/-- A record schema with no fields at all. -/
def emptyRec : RecordEncoding :=
  { name := "Empty", req_fields := [], opt_rep_fields := [] }

/-- Schema of spec seed test 2: a single required `UInt32` field, id 1. -/
def reqU32Rec : RecordEncoding :=
  { name := "ReqU32"
    req_fields :=
      [ { id := 1, name := "x", quant := .Required, typ := .UInt32, bounds := none } ]
    opt_rep_fields := [] }

/-- An `Encodable` holding the single value `UInt32 300` at field 1. -/
def u32Encodable : Encodable :=
  { get_primitive := fun id idx =>
      if id = 1 ∧ idx = 0 then .ok (.UInt32 300) else .error .EncodingInvalid
    encode_record := fun _ _ _ _ => .error .EncodingInvalid
    count_field := fun _ => .ok 0 }

/-- Schema of spec seed test 3: one optional `String` field, id 5. -/
def optStrRec : RecordEncoding :=
  { name := "OptStr"
    req_fields := []
    opt_rep_fields :=
      [ { id := 5, name := "s", quant := .Optional, typ := .String, bounds := none } ] }

/-- An `Encodable` holding the single present optional value
`String "hi"` (UTF-8 bytes `0x68 0x69`) at field 5. -/
def hiEncodable : Encodable :=
  { get_primitive := fun id idx =>
      if id = 5 ∧ idx = 0 then .ok (.String [0x68, 0x69]) else .error .EncodingInvalid
    encode_record := fun _ _ _ _ => .error .EncodingInvalid
    count_field := fun id => if id = 5 then .ok 1 else .ok 0 }

/-- Schema of spec seed test 4: one repeated `Int32` field, id 7. -/
def repI32Rec : RecordEncoding :=
  { name := "RepI32"
    req_fields := []
    opt_rep_fields :=
      [ { id := 7, name := "xs", quant := .Repeated, typ := .Int32, bounds := none } ] }

/-! ### Source-consumption lemmas

Every read operation leaves a suffix of its source; a nonzero uvarint
consumed at least one byte.  These bounds justify termination of the
optional/repeated merge loop below. -/

theorem takeWhileIncl_snd_le (p : Nat → Bool) (src : List Nat) :
    (takeWhileIncl p src).2.length ≤ src.length := by
  induction src with
  | nil => simp [takeWhileIncl]
  | cons b rest ih =>
    by_cases hp : p b <;> simp [takeWhileIncl, hp] <;> omega

theorem takeWhileIncl_snd_lt (p : Nat → Bool) (b : Nat) (rest : List Nat) :
    (takeWhileIncl p (b :: rest)).2.length < (b :: rest).length := by
  have h := takeWhileIncl_snd_le p rest
  by_cases hp : p b <;> simp [takeWhileIncl, hp] <;> omega

theorem ruv_snd_le (src : List Nat) : (ruv src).2.length ≤ src.length := by
  simpa [ruv] using takeWhileIncl_snd_le (fun b => 0x80 ≤ b) src

theorem ruv_nil : ruv [] = (0, []) := rfl

theorem ruv_snd_lt (src : List Nat) (h : (ruv src).1 ≠ 0) :
    (ruv src).2.length < src.length := by
  cases src with
  | nil => exact absurd (by simp [ruv_nil]) h
  | cons b rest => simpa [ruv] using takeWhileIncl_snd_lt (fun b => 0x80 ≤ b) b rest

theorem skip_field_le {src rest : List Nat} (h : skip_field src = .ok rest) :
    rest.length ≤ src.length := by
  have hr := ruv_snd_le src
  simp only [skip_field] at h
  split at h
  · cases h; simp only [List.length_drop]; omega
  · cases h

theorem read_u8_le {src : List Nat} {v : Nat} {rest : List Nat}
    (h : read_u8 src = .ok (v, rest)) : rest.length ≤ src.length := by
  cases src with
  | nil => cases h
  | cons b tl => cases h; simp

theorem read_le_u16_le {src : List Nat} {v : Nat} {rest : List Nat}
    (h : read_le_u16 src = .ok (v, rest)) : rest.length ≤ src.length := by
  unfold read_le_u16 at h
  split at h
  · cases h; simp
  · cases h

theorem read_le_u32_le {src : List Nat} {v : Nat} {rest : List Nat}
    (h : read_le_u32 src = .ok (v, rest)) : rest.length ≤ src.length := by
  unfold read_le_u32 at h
  split at h
  · cases h; simp
  · cases h

theorem read_le_u64_le {src : List Nat} {v : Nat} {rest : List Nat}
    (h : read_le_u64 src = .ok (v, rest)) : rest.length ≤ src.length := by
  unfold read_le_u64 at h
  split at h
  · cases h; simp
  · cases h

theorem read_uvarint_le {src : List Nat} {v : Nat} {rest : List Nat}
    (h : read_uvarint src = .ok (v, rest)) : rest.length ≤ src.length := by
  unfold read_uvarint at h
  cases h
  exact ruv_snd_le src

theorem read_varint_le {src : List Nat} {v : Int} {rest : List Nat}
    (h : read_varint src = .ok (v, rest)) : rest.length ≤ src.length := by
  have hr := ruv_snd_le src
  simp only [read_varint] at h
  split at h
  · cases h; exact hr
  · cases h; exact hr

theorem readPrim_le {t : Typ} {src : List Nat} {p : Primitive} {rest : List Nat}
    (h : readPrim t src = .ok (p, rest)) : rest.length ≤ src.length := by
  cases t <;> simp only [readPrim, bind, Except.bind] at h
  case UInt8 =>
    cases hu : read_u8 src with
    | error e => rw [hu] at h; cases h
    | ok val => obtain ⟨v1, r1⟩ := val; rw [hu] at h; cases h; exact read_u8_le hu
  case UInt16 =>
    cases hu : read_le_u16 src with
    | error e => rw [hu] at h; cases h
    | ok val => obtain ⟨v1, r1⟩ := val; rw [hu] at h; cases h; exact read_le_u16_le hu
  case UInt32 =>
    cases hu : read_uvarint src with
    | error e => rw [hu] at h; cases h
    | ok val => obtain ⟨v1, r1⟩ := val; rw [hu] at h; cases h; exact read_uvarint_le hu
  case UInt64 =>
    cases hu : read_uvarint src with
    | error e => rw [hu] at h; cases h
    | ok val => obtain ⟨v1, r1⟩ := val; rw [hu] at h; cases h; exact read_uvarint_le hu
  case Int8 =>
    cases hu : read_u8 src with
    | error e => rw [hu] at h; cases h
    | ok val => obtain ⟨v1, r1⟩ := val; rw [hu] at h; cases h; exact read_u8_le hu
  case Int16 =>
    cases hu : read_le_u16 src with
    | error e => rw [hu] at h; cases h
    | ok val => obtain ⟨v1, r1⟩ := val; rw [hu] at h; cases h; exact read_le_u16_le hu
  case Int32 =>
    cases hu : read_varint src with
    | error e => rw [hu] at h; cases h
    | ok val => obtain ⟨v1, r1⟩ := val; rw [hu] at h; cases h; exact read_varint_le hu
  case Int64 =>
    cases hu : read_varint src with
    | error e => rw [hu] at h; cases h
    | ok val => obtain ⟨v1, r1⟩ := val; rw [hu] at h; cases h; exact read_varint_le hu
  case Fixed32 =>
    cases hu : read_le_u32 src with
    | error e => rw [hu] at h; cases h
    | ok val => obtain ⟨v1, r1⟩ := val; rw [hu] at h; cases h; exact read_le_u32_le hu
  case Fixed64 =>
    cases hu : read_le_u64 src with
    | error e => rw [hu] at h; cases h
    | ok val => obtain ⟨v1, r1⟩ := val; rw [hu] at h; cases h; exact read_le_u64_le hu
  case Float32 =>
    cases hu : read_le_u32 src with
    | error e => rw [hu] at h; cases h
    | ok val => obtain ⟨v1, r1⟩ := val; rw [hu] at h; cases h; exact read_le_u32_le hu
  case Float64 =>
    cases hu : read_le_u64 src with
    | error e => rw [hu] at h; cases h
    | ok val => obtain ⟨v1, r1⟩ := val; rw [hu] at h; cases h; exact read_le_u64_le hu
  case Bool =>
    cases hu : read_u8 src with
    | error e => rw [hu] at h; cases h
    | ok val =>
      obtain ⟨v1, r1⟩ := val
      simp only [hu] at h
      split at h
      · cases h; exact read_u8_le hu
      · split at h
        · cases h; exact read_u8_le hu
        · cases h
  case Bytes =>
    cases hu : read_uvarint src with
    | error e => rw [hu] at h; cases h
    | ok val =>
      obtain ⟨v1, r1⟩ := val
      have h1 : r1.length ≤ src.length := read_uvarint_le hu
      simp only [hu] at h
      split at h
      · cases h; simp only [List.length_drop]; omega
      · cases h
  case String =>
    cases hu : read_uvarint src with
    | error e => rw [hu] at h; cases h
    | ok val =>
      obtain ⟨v1, r1⟩ := val
      have h1 : r1.length ≤ src.length := read_uvarint_le hu
      simp only [hu] at h
      split at h
      · split at h
        · cases h; simp only [List.length_drop]; omega
        · cases h
      · cases h
  case Enum =>
    cases hu : read_varint src with
    | error e => rw [hu] at h; cases h
    | ok val => obtain ⟨v1, r1⟩ := val; rw [hu] at h; cases h; exact read_varint_le hu
  case Record =>
    cases h

theorem decode_field_le {σ : Type} {d : Decodable σ} {deps : List RecordEncoding}
    {f : FieldEncoding} {idx : Nat} {s : σ} {src : List Nat} {s1 : σ} {src1 : List Nat}
    (h : decode_field d deps f idx s src = .ok (s1, src1)) : src1.length ≤ src.length := by
  unfold decode_field at h
  split at h
  · split at h
    · split at h
      · rename_i heq
        cases h; simp only [List.length_drop]; omega
      · cases h
    · cases h
  · simp only [bind, Except.bind] at h
    cases hu : readPrim f.typ src with
    | error e => rw [hu] at h; cases h
    | ok val =>
      obtain ⟨pv, r1⟩ := val
      simp only [hu] at h
      cases hs : d.set_primitive s f.id idx pv with
      | error e => rw [hs] at h; cases h
      | ok s2 => simp only [hs] at h; cases h; exact readPrim_le hu

theorem decode_field_range_le {σ : Type} {d : Decodable σ} {deps : List RecordEncoding}
    {f : FieldEncoding} {start n : Nat} {s : σ} {src : List Nat} {s1 : σ} {src1 : List Nat}
    (h : decode_field_range d deps f start n s src = .ok (s1, src1)) :
    src1.length ≤ src.length := by
  induction n generalizing start s src with
  | zero => cases h; omega
  | succ n ih =>
    unfold decode_field_range at h
    cases hf : decode_field d deps f start s src with
    | error e => rw [hf] at h; cases h
    | ok val =>
      obtain ⟨s2, src2⟩ := val
      simp only [hf] at h
      exact le_trans (ih h) (decode_field_le hf)

theorem decode_array_le {σ : Type} {d : Decodable σ} {deps : List RecordEncoding}
    {f : FieldEncoding} {idx : Nat} {s : σ} {src : List Nat} {s1 : σ} {src1 : List Nat}
    (h : decode_array d deps f idx s src = .ok (s1, src1)) : src1.length ≤ src.length := by
  unfold decode_array at h
  split at h
  · exact decode_field_range_le h
  · exact decode_field_le h

theorem decode_optional_le {σ : Type} {d : Decodable σ} {deps : List RecordEncoding}
    {f : FieldEncoding} {s : σ} {src : List Nat} {s1 : σ} {src1 : List Nat}
    (h : decode_optional d deps f s src = .ok (s1, src1)) : src1.length ≤ src.length := by
  unfold decode_optional at h
  calc src1.length ≤ (ruv src).2.length := decode_array_le h
    _ ≤ src.length := ruv_snd_le src

theorem decode_rep_range_le {σ : Type} {d : Decodable σ} {deps : List RecordEncoding}
    {f : FieldEncoding} {idx n : Nat} {s : σ} {src : List Nat} {s1 : σ} {src1 : List Nat}
    (h : decode_rep_range d deps f idx n s src = .ok (s1, src1)) :
    src1.length ≤ src.length := by
  induction n generalizing idx s src with
  | zero => cases h; omega
  | succ n ih =>
    unfold decode_rep_range at h
    cases hf : decode_array d deps f idx s src with
    | error e => rw [hf] at h; cases h
    | ok val =>
      obtain ⟨s2, src2⟩ := val
      simp only [hf] at h
      exact le_trans (ih h) (decode_array_le hf)

theorem decode_repeated_le {σ : Type} {d : Decodable σ} {deps : List RecordEncoding}
    {f : FieldEncoding} {s : σ} {src : List Nat} {s1 : σ} {src1 : List Nat}
    (h : decode_repeated d deps f s src = .ok (s1, src1)) : src1.length ≤ src.length := by
  unfold decode_repeated at h
  calc src1.length ≤ (ruv (ruv src).2).2.length := decode_rep_range_le h
    _ ≤ (ruv src).2.length := ruv_snd_le _
    _ ≤ src.length := ruv_snd_le src


/-! ### Adequacy of the iteration budgets

The two loops above are written with an explicit budget so that they are
structurally recursive (and hence computable by the kernel).  The theorems
here certify that the budgets are irrelevant: each budgeted loop satisfies
the budget-free recurrence of the Rust source. -/

theorem write_uvarint_loop_f_invariant :
    ∀ (fuel x idx : Nat) (buf : List Nat), x < 2 ^ (7 * fuel + 7) →
      write_uvarint_loop_f (fuel + 1) x idx buf = write_uvarint_loop_f fuel x idx buf := by
  intro fuel
  induction fuel with
  | zero =>
    intro x idx buf hx
    have hc : ¬ 0x7F < x := by norm_num at hx ⊢; omega
    simp only [write_uvarint_loop_f, if_neg hc]
  | succ fuel ih =>
    intro x idx buf hx
    by_cases hc : 0x7F < x
    · simp only [write_uvarint_loop_f, if_pos hc]
      refine ih (x >>> 7) (idx + 1) _ ?_
      have hs : x >>> 7 = x / 2 ^ 7 := Nat.shiftRight_eq_div_pow x 7
      have hp : (2 : Nat) ^ (7 * (fuel + 1) + 7) = 2 ^ (7 * fuel + 7) * 2 ^ 7 := by
        rw [← pow_add]; ring_nf
      rw [hs]
      rw [hp] at hx
      exact Nat.div_lt_of_lt_mul (by omega)
    · simp only [write_uvarint_loop_f, if_neg hc]

/-- The Rust `while x > 0x7F` recurrence, satisfied by
`write_uvarint_loop` for every `u64` argument (a 64-bit value needs at
most 9 iterations, so the budget of 10 is never exhausted). -/
theorem write_uvarint_loop_eq (x idx : Nat) (buf : List Nat) (hx : x < 2 ^ 64) :
    write_uvarint_loop x idx buf =
      if 0x7F < x then
        write_uvarint_loop (x >>> 7) (idx + 1) (buf.set idx (0x80 ||| (x % 0x80)))
      else
        (buf.set idx x, idx) := by
  unfold write_uvarint_loop
  by_cases hc : 0x7F < x
  · simp only [write_uvarint_loop_f, if_pos hc]
    refine (write_uvarint_loop_f_invariant 9 (x >>> 7) (idx + 1) _ ?_).symm
    have hs : x >>> 7 = x / 2 ^ 7 := Nat.shiftRight_eq_div_pow x 7
    have : x / 2 ^ 7 ≤ x := Nat.div_le_self x (2 ^ 7)
    have : x < 2 ^ (7 * 9 + 7) := lt_of_lt_of_le hx (by norm_num)
    omega
  · simp only [write_uvarint_loop_f, if_neg hc]

/-- A `u64`-sized witness discharging `write_uvarint_loop_eq`'s bound at a
concrete input (kept as a theorem so the recurrence is exercised). -/
theorem write_uvarint_loop_eq_witness :
    write_uvarint_loop 300 0 (List.replicate 10 0) =
      write_uvarint_loop (300 >>> 7) 1 ((List.replicate 10 0).set 0 (0x80 ||| (300 % 0x80))) := by
  have h := write_uvarint_loop_eq 300 0 (List.replicate 10 0) (by norm_num)
  simpa using h

theorem decodeLoopF_succ {σ : Type} (d : Decodable σ) (deps : List RecordEncoding)
    (fuel : Nat) (fields : List FieldEncoding) (nextId : Nat) (s : σ) (src : List Nat) :
    decodeLoopF d deps (fuel + 1) fields nextId s src =
      if nextId = 0 then .ok (s, src)
      else
        match fields with
        | f :: rest =>
          if f.id < nextId then
            decodeLoopF d deps fuel rest nextId s src
          else if nextId < f.id then
            match skip_field src with
            | .error e => .error e
            | .ok src1 =>
              let p := ruv src1
              if p.1 = 0 then .ok (s, p.2)
              else decodeLoopF d deps fuel (f :: rest) p.1 s p.2
          else
            match f.quant with
            | .Required => .error .EncodingInvalid
            | .Optional =>
              match decode_optional d deps f s src with
              | .error e => .error e
              | .ok (s1, src1) =>
                let p := ruv src1
                if p.1 = 0 then .ok (s1, p.2)
                else decodeLoopF d deps fuel rest p.1 s1 p.2
            | .Repeated =>
              match decode_repeated d deps f s src with
              | .error e => .error e
              | .ok (s1, src1) =>
                let p := ruv src1
                if p.1 = 0 then .ok (s1, p.2)
                else decodeLoopF d deps fuel rest p.1 s1 p.2
        | [] =>
          let p := ruv src
          if p.1 = 0 then .ok (s, p.2)
          else decodeLoopF d deps fuel [] p.1 s p.2 := rfl

theorem decodeLoopF_invariant {σ : Type} (d : Decodable σ) (deps : List RecordEncoding) :
    ∀ (fuel : Nat) (fields : List FieldEncoding) (nextId : Nat) (s : σ) (src : List Nat),
      src.length + fields.length < fuel →
      decodeLoopF d deps (fuel + 1) fields nextId s src =
        decodeLoopF d deps fuel fields nextId s src := by
  intro fuel
  induction fuel with
  | zero =>
    intro fields nextId s src h
    exact absurd h (Nat.not_lt_zero _)
  | succ fuel ih =>
    intro fields nextId s src hm
    rw [decodeLoopF_succ, decodeLoopF_succ]
    by_cases hz : nextId = 0
    · simp [hz]
    · cases fields with
      | nil =>
        simp only [if_neg hz]
        by_cases hp : (ruv src).1 = 0
        · simp [hp]
        · have hlt := ruv_snd_lt src hp
          simp only [if_neg hp]
          refine ih [] (ruv src).1 s (ruv src).2 ?_
          simp only [List.length_nil] at hm ⊢
          omega
      | cons f rest =>
        simp only [if_neg hz]
        by_cases h1 : f.id < nextId
        · simp only [if_pos h1]
          refine ih rest nextId s src ?_
          simp only [List.length_cons] at hm
          omega
        · by_cases h2 : nextId < f.id
          · simp only [if_neg h1, if_pos h2]
            cases hsk : skip_field src with
            | error e => rfl
            | ok src1 =>
              have hle := skip_field_le hsk
              by_cases hp : (ruv src1).1 = 0
              · simp [hp]
              · have hlt := ruv_snd_lt src1 hp
                simp only [if_neg hp]
                refine ih (f :: rest) (ruv src1).1 s (ruv src1).2 ?_
                simp only [List.length_cons] at hm ⊢
                omega
          · simp only [if_neg h1, if_neg h2]
            cases hq : f.quant with
            | Required => rfl
            | Optional =>
              cases hde : decode_optional d deps f s src with
              | error e => rfl
              | ok val =>
                obtain ⟨s1, src1⟩ := val
                have hle := decode_optional_le hde
                by_cases hp : (ruv src1).1 = 0
                · simp [hp]
                · have hl2 := ruv_snd_le src1
                  simp only [if_neg hp]
                  refine ih rest (ruv src1).1 s1 (ruv src1).2 ?_
                  simp only [List.length_cons] at hm
                  omega
            | Repeated =>
              cases hde : decode_repeated d deps f s src with
              | error e => rfl
              | ok val =>
                obtain ⟨s1, src1⟩ := val
                have hle := decode_repeated_le hde
                by_cases hp : (ruv src1).1 = 0
                · simp [hp]
                · have hl2 := ruv_snd_le src1
                  simp only [if_neg hp]
                  refine ih rest (ruv src1).1 s1 (ruv src1).2 ?_
                  simp only [List.length_cons] at hm
                  omega

theorem decodeLoopF_of_lt {σ : Type} (d : Decodable σ) (deps : List RecordEncoding) :
    ∀ (fuel : Nat) (fields : List FieldEncoding) (nextId : Nat) (s : σ) (src : List Nat),
      src.length + fields.length < fuel →
      decodeLoopF d deps fuel fields nextId s src = decodeLoop d deps fields nextId s src := by
  intro fuel
  induction fuel with
  | zero =>
    intro fields nextId s src h
    exact absurd h (Nat.not_lt_zero _)
  | succ fuel ih =>
    intro fields nextId s src h
    by_cases hb : src.length + fields.length < fuel
    · rw [decodeLoopF_invariant d deps fuel fields nextId s src hb]
      exact ih fields nextId s src hb
    · have hf : fuel = src.length + fields.length := by omega
      unfold decodeLoop
      rw [hf]

/-- The Rust `while next_id != 0` merge-loop recurrence, satisfied by
`decodeLoop` at every input: this is the budget-free specification of the
loop, matching `Decoder::decode` line for line. -/
theorem decodeLoop_eq {σ : Type} (d : Decodable σ) (deps : List RecordEncoding)
    (fields : List FieldEncoding) (nextId : Nat) (s : σ) (src : List Nat) :
    decodeLoop d deps fields nextId s src =
      if nextId = 0 then .ok (s, src)
      else
        match fields with
        | f :: rest =>
          if f.id < nextId then
            decodeLoop d deps rest nextId s src
          else if nextId < f.id then
            match skip_field src with
            | .error e => .error e
            | .ok src1 =>
              let p := ruv src1
              if p.1 = 0 then .ok (s, p.2)
              else decodeLoop d deps (f :: rest) p.1 s p.2
          else
            match f.quant with
            | .Required => .error .EncodingInvalid
            | .Optional =>
              match decode_optional d deps f s src with
              | .error e => .error e
              | .ok (s1, src1) =>
                let p := ruv src1
                if p.1 = 0 then .ok (s1, p.2)
                else decodeLoop d deps rest p.1 s1 p.2
            | .Repeated =>
              match decode_repeated d deps f s src with
              | .error e => .error e
              | .ok (s1, src1) =>
                let p := ruv src1
                if p.1 = 0 then .ok (s1, p.2)
                else decodeLoop d deps rest p.1 s1 p.2
        | [] =>
          let p := ruv src
          if p.1 = 0 then .ok (s, p.2)
          else decodeLoop d deps [] p.1 s p.2 := by
  rw [decodeLoop, decodeLoopF_succ]
  by_cases hz : nextId = 0
  · simp [hz]
  · cases fields with
    | nil =>
      simp only [if_neg hz]
      by_cases hp : (ruv src).1 = 0
      · simp [hp]
      · have hlt := ruv_snd_lt src hp
        simp only [if_neg hp]
        refine decodeLoopF_of_lt d deps _ [] (ruv src).1 s (ruv src).2 ?_
        simp only [List.length_nil]
        omega
    | cons f rest =>
      simp only [if_neg hz]
      by_cases h1 : f.id < nextId
      · simp only [if_pos h1]
        refine decodeLoopF_of_lt d deps _ rest nextId s src ?_
        simp only [List.length_cons]
        omega
      · by_cases h2 : nextId < f.id
        · simp only [if_neg h1, if_pos h2]
          cases hsk : skip_field src with
          | error e => rfl
          | ok src1 =>
            have hle := skip_field_le hsk
            by_cases hp : (ruv src1).1 = 0
            · simp [hp]
            · have hlt := ruv_snd_lt src1 hp
              simp only [if_neg hp]
              refine decodeLoopF_of_lt d deps _ (f :: rest) (ruv src1).1 s (ruv src1).2 ?_
              simp only [List.length_cons]
              omega
        · simp only [if_neg h1, if_neg h2]
          cases hq : f.quant with
          | Required => rfl
          | Optional =>
            cases hde : decode_optional d deps f s src with
            | error e => rfl
            | ok val =>
              obtain ⟨s1, src1⟩ := val
              have hle := decode_optional_le hde
              by_cases hp : (ruv src1).1 = 0
              · simp [hp]
              · have hl2 := ruv_snd_le src1
                simp only [if_neg hp]
                refine decodeLoopF_of_lt d deps _ rest (ruv src1).1 s1 (ruv src1).2 ?_
                simp only [List.length_cons]
                omega
          | Repeated =>
            cases hde : decode_repeated d deps f s src with
            | error e => rfl
            | ok val =>
              obtain ⟨s1, src1⟩ := val
              have hle := decode_repeated_le hde
              by_cases hp : (ruv src1).1 = 0
              · simp [hp]
              · have hl2 := ruv_snd_le src1
                simp only [if_neg hp]
                refine decodeLoopF_of_lt d deps _ rest (ruv src1).1 s1 (ruv src1).2 ?_
                simp only [List.length_cons]
                omega

/-- `take_while_incl` yields the whole source (and exhausts it) when every
element satisfies the predicate. -/
theorem takeWhileIncl_all (p : Nat → Bool) :
    ∀ src : List Nat, (∀ b ∈ src, p b) → takeWhileIncl p src = (src, []) := by
  intro src h
  induction src with
  | nil => rfl
  | cons b rest ih =>
    have hb : p b := h b (by simp)
    simp only [takeWhileIncl, if_pos hb]
    rw [ih (fun x hx => h x (by simp [hx]))]

/-! ## The claims -/

/-- C1: the round-trip property `decode(encode(V, S), S) == V` fails on
the code.  With the schema of spec seed test 2 (one required `UInt32`
field, id 1) and value 300, the encoder emits `0x02` followed by 18 zero
bytes (because `write_uvarint` writes `&buf[idx..]` — the final byte plus
the tail of the 10-byte buffer — instead of the filled prefix), and the
decoder then delivers `UInt32 2`, not `UInt32 300`. -/
theorem c1_round_trip_code_bug :
    Encoder.encode u32Encodable reqU32Rec [] [] =
      .ok ([0x02, 0, 0, 0, 0, 0, 0, 0, 0, 0, 0, 0, 0, 0, 0, 0, 0, 0, 0], 3)
    ∧ Decoder.decode logDecodable reqU32Rec [] []
        [0x02, 0, 0, 0, 0, 0, 0, 0, 0, 0, 0, 0, 0, 0, 0, 0, 0, 0, 0] =
      .ok ([.setP 1 0 (.UInt32 2)], [0, 0, 0, 0, 0, 0, 0, 0, 0, 0, 0, 0, 0, 0, 0, 0, 0])
    ∧ [DEvent.setP 1 0 (.UInt32 2)] ≠ [DEvent.setP 1 0 (.UInt32 300)] := by
  decide

/-- C2: the uvarint round-trip fails on the code.  `write_uvarint 300`
emits the 9 bytes `0x02 00 ...` (not the 2 bytes `uvarint_size 300`
predicts), reading those back gives 2, `write_uvarint 0` emits 10 bytes
(claim: any u < 0x80 occupies 1 byte), `write_uvarint (0x80<<56)` emits a
single byte (claim: 10 bytes), and even the intended two-byte encoding
`0xAC 0x02` of 300 reads back as 5634 because `read_uvarint` accumulates
`(acc << 7) + b` most-significant-first against an LSB-first writer. -/
theorem c2_uvarint_code_bug :
    uvarint_size 300 = 2
    ∧ write_uvarint 300 = ([0x02, 0, 0, 0, 0, 0, 0, 0, 0], 2)
    ∧ (write_uvarint 300).1.length ≠ uvarint_size 300
    ∧ ruv [0x02, 0, 0, 0, 0, 0, 0, 0, 0] = (2, [0, 0, 0, 0, 0, 0, 0, 0])
    ∧ write_uvarint 0 = ([0, 0, 0, 0, 0, 0, 0, 0, 0, 0], 1)
    ∧ write_uvarint (0x80 <<< 56) = ([1], 10)
    ∧ ruv [0xAC, 0x02] = (5634, []) := by
  decide

/-- C3: the zig-zag round-trip fails on the code.  `write_varint 0` emits
ten `0x00` bytes, not the single byte `0x00`; `write_varint (-1)` and
`write_varint 1` emit `0x01`/`0x02` followed by nine zero bytes, not a
single byte; and reading back the bytes written for −1 yields
−(2^63 − 1), because `read_varint` computes `(!ux >> 1)` where the
zig-zag inverse needs `!(ux >> 1)`. -/
theorem c3_zigzag_code_bug :
    write_varint 0 = ([0, 0, 0, 0, 0, 0, 0, 0, 0, 0], 1)
    ∧ write_varint (-1) = ([0x01, 0, 0, 0, 0, 0, 0, 0, 0, 0], 1)
    ∧ write_varint 1 = ([0x02, 0, 0, 0, 0, 0, 0, 0, 0, 0], 1)
    ∧ read_varint [0x01, 0, 0, 0, 0, 0, 0, 0, 0, 0] =
        .ok (-(2 ^ 63 - 1), [0, 0, 0, 0, 0, 0, 0, 0, 0])
    ∧ (-(2 ^ 63 - 1) : Int) ≠ -1 := by
  decide

/-- C4: `write_le_u32 0xDEADBEEF` emits the little-endian bytes
`EF BE AD DE` as claimed, but reading them back with `read_le_u32` yields
0xEFBEADDE, not 0xDEADBEEF: the reader folds `(so_far << 8) + next`,
treating the first byte as most significant, contradicting its own
doc comment and the claim. -/
theorem c4_fixed32_code_bug :
    write_le_u32 0xDEADBEEF = ([0xEF, 0xBE, 0xAD, 0xDE], 4)
    ∧ read_le_u32 [0xEF, 0xBE, 0xAD, 0xDE] = .ok (0xEFBEADDE, [])
    ∧ (0xEFBEADDE : Nat) ≠ 0xDEADBEEF := by
  decide

/-- C5: `has_type` is not the claimed exact one-to-one variant match: the
source accepts `Primitive::UInt16` against `Type::UInt8` (and
`Int16` against `Int8`) and rejects `UInt16` against `UInt16` (and
`Int16` against `Int16`) — the copy-paste bug §9 of the spec flags. -/
theorem c5_has_type_code_bug :
    Primitive.has_type (.UInt16 0) Typ.UInt8 = true
    ∧ Primitive.has_type (.UInt16 0) Typ.UInt16 = false
    ∧ Primitive.has_type (.Int16 0) Typ.Int8 = true
    ∧ Primitive.has_type (.Int16 0) Typ.Int16 = false := by
  decide

/-- C6: encoding the optional-String scenario of spec seed test 3 does not
produce `05 03 02 68 69 00`.  The encoder's staging buffer receives only
the payload — the field id and the size prefix are counted in the return
value but never written (the `Chunk` patch list is never populated) — and
`write_uvarint` corrupts the string's length prefix into ten bytes, so the
buffer ends up `02 00×9 68 69 00×10` with return value 5. -/
theorem c6_optional_wire_code_bug :
    Encoder.encode hiEncodable optStrRec [] [] =
      .ok ([0x02, 0, 0, 0, 0, 0, 0, 0, 0, 0, 0x68, 0x69,
            0, 0, 0, 0, 0, 0, 0, 0, 0, 0], 5)
    ∧ ([0x02, 0, 0, 0, 0, 0, 0, 0, 0, 0, 0x68, 0x69,
        0, 0, 0, 0, 0, 0, 0, 0, 0, 0] : List Nat)
        ≠ [0x05, 0x03, 0x02, 0x68, 0x69, 0x00] := by
  decide

/-- C7: when the schema's opt/rep list is exhausted, remaining wire fields
are NOT skipped via their size prefix.  With an empty opt/rep schema and
the wire `05 02 00 07 00` (unknown field id 5, size 2, payload `00 07`),
the `None` arm of the merge loop reads the size prefix 0x02 as the next
field id and the payload byte 0x00 as the terminator: decode returns
leaving `07 00` unconsumed, instead of consuming the size prefix and
exactly 2 payload bytes via `skip_field` and ending after the real
terminator with nothing left. -/
theorem c7_skip_unknown_code_bug :
    Decoder.decode logDecodable emptyRec [] [] [0x05, 0x02, 0x00, 0x07, 0x00] =
      .ok ([], [0x07, 0x00])
    ∧ ([0x07, 0x00] : List Nat) ≠ [] := by
  decide

/-- C8: matching a Repeated field never calls `alloc_field`.  Decoding the
wire of spec seed test 4 (`07 04 03 01 00 02 00`) against the repeated-
Int32 schema delivers three elements directly via `set_primitive` — the
full callback trace contains no `alloc_field(7, 3)` (or any `alloc_field`)
invocation, because `decode_repeated` has no call site for it. -/
theorem c8_alloc_field_code_bug :
    Decoder.decode logDecodable repI32Rec [] []
        [0x07, 0x04, 0x03, 0x01, 0x00, 0x02, 0x00] =
      .ok ([.setP 7 0 (.Int32 1), .setP 7 1 (.Int32 0), .setP 7 2 (.Int32 1)], [])
    ∧ DEvent.allocF 7 3 ∉
        [DEvent.setP 7 0 (.Int32 1), DEvent.setP 7 1 (.Int32 0),
         DEvent.setP 7 2 (.Int32 1)] := by
  decide

/-- C9: the hardcoded bootstrap `COMPLETE_ENC` satisfies every
`RecordEncoding` invariant for its target and for both dependencies
(`depends[0]` = "FieldEncoding", `depends[1]` = "RecordEncoding"): all
`req_fields` entries are Required, all `opt_rep_fields` entries are
Optional or Repeated, both lists are sorted in strictly ascending FieldID
order, no FieldID is 0, and FieldIDs are unique within each record. -/
theorem c9_complete_enc_invariants :
    COMPLETE_ENC.target.name = "CompleteEncoding"
    ∧ COMPLETE_ENC.depends.map (fun r => r.name) = ["FieldEncoding", "RecordEncoding"]
    ∧ recordInvariants COMPLETE_ENC.target = true
    ∧ COMPLETE_ENC.depends.all recordInvariants = true := by
  decide

/-- C10: `read_uvarint` never returns an error on a pure byte source: it
returns `Ok` with the partially accumulated value when the source is
exhausted before a byte with the high bit clear — `Ok 0` on the empty
source — and consequently `decode` accepts a stream truncated exactly
where a field id (in particular the 0 terminator) would be read,
completing as if the record were properly terminated. -/
theorem c10_truncated_read_ok :
    (∀ src : List Nat, read_uvarint src = .ok (ruv src))
    ∧ (∀ src : List Nat, (∀ b ∈ src, 0x80 ≤ b) →
        read_uvarint src =
          .ok (src.foldl (fun sum x => (sum * 128 + x % 0x80) % 2 ^ 64) 0, []))
    ∧ read_uvarint ([] : List Nat) = .ok (0, [])
    ∧ (∀ (σ : Type) (d : Decodable σ) (rec : RecordEncoding)
        (deps : List RecordEncoding) (s : σ), rec.req_fields = [] →
        Decoder.decode d rec deps s [] = .ok (s, [])) := by
  refine ⟨fun src => rfl, ?_, rfl, ?_⟩
  · intro src h
    simp only [read_uvarint, ruv]
    rw [takeWhileIncl_all _ src (fun b hb => by simpa using h b hb)]
  · intro σ d rec deps s hreq
    simp [Decoder.decode, hreq, decode_req_phase, ruv, takeWhileIncl,
      decodeLoop, decodeLoopF]

/-- Witness for C10: the theorem applied at the two-continuation-byte
source `80 81` (partial value 1) and at a concrete decode of the empty
source. -/
theorem c10_truncated_read_ok_witness :
    read_uvarint [0x80, 0x81] = .ok (1, [])
    ∧ Decoder.decode logDecodable emptyRec [] [] [] = .ok ([], []) :=
  ⟨by
    have h := c10_truncated_read_ok.2.1 [0x80, 0x81] (by decide)
    simpa using h,
   c10_truncated_read_ok.2.2.2 (List DEvent) logDecodable emptyRec [] [] rfl⟩

end Rex
